import Mathlib

/-!
Verification of the repository-ingestion backend (`src/backend/main.py`):
a shallow embedding of the URL validator, archive sanitizer, and tree
collector, together with theorems settling the specification's claims.
-/

set_option maxRecDepth 4000

/-! ### Generic string/list helpers used by the embedding -/

/-- `s.startswith pre` on Python strings, modelled on character lists. -/
def listStartsWith (pre s : List Char) : Bool :=
  s.take pre.length == pre

/-- `str.startswith` on Lean strings. -/
def strStartsWith (s pre : String) : Bool :=
  listStartsWith pre.data s.data

/-- Split a list at the first occurrence of `c` (Python `find` + slice):
`none` when `c` does not occur. -/
def splitFirstChar (c : Char) : List Char → Option (List Char × List Char)
  | [] => none
  | x :: xs =>
    if x = c then some ([], xs)
    else match splitFirstChar c xs with
      | some (pre, post) => some (x :: pre, post)
      | none => none

/-- Split a list on every occurrence of `c` (Python `str.split(c)`). -/
def splitOnChar (c : Char) : List Char → List (List Char)
  | [] => [[]]
  | x :: xs =>
    match splitOnChar c xs with
    | [] => if x = c then [[], []] else [[x]]
    | h :: t => if x = c then [] :: h :: t else (x :: h) :: t

/-- Python `str.split(c)` on Lean strings (structurally recursive, unlike
`String.splitOn`, so that concrete instances reduce). -/
def strSplitChar (c : Char) (s : String) : List String :=
  (splitOnChar c s.data).map String.mk

/-- Python `str.lower()` (ASCII case folding, structurally recursive). -/
def strLower (s : String) : String :=
  String.mk (s.data.map Char.toLower)

/-! ### Configuration constants (default values of the environment-style
configuration read at startup, see `main.py` lines 24–52). -/

def SKIP_DIRS : List String :=
  [".git", "node_modules", "__pycache__", "build", ".venv", "venv", ".next",
   "dist", "out", "coverage", ".pytest_cache", ".mypy_cache", ".ruff_cache",
   ".tox", ".idea", ".vscode", ".cache"]

def MAX_ZIP_BYTES : Int := 50 * 1024 * 1024
def MAX_EXTRACT_BYTES : Int := 200 * 1024 * 1024
def MAX_FILE_BYTES : Nat := 512000

/-! ### Archive sanitizer (`is_symlink`, `safe_extract_zip`)

Paths are modelled as lists of segments of an absolute POSIX path
(`["tmp","ws","project"]` stands for `/tmp/ws/project`).  `Path.resolve()`
on a path without symlinked components normalizes `..` lexically, which
`resolveSegs` mirrors; `str()` renders `/`-joined, which `renderAbs`
mirrors.  `extractall` is modelled by the list of target paths it writes
(one per member, with `zipfile`'s own dropping of `''`, `'.'` and `'..'`
parts), returned on success: an error result means nothing is written. -/

structure ZipMember where
  filename : String
  file_size : Int
  external_attr : Nat
deriving Repr, DecidableEq

def is_symlink (info : ZipMember) : Bool :=
  (info.external_attr >>> 16) &&& 0o170000 == 0o120000

/-- `pathlib` segment parsing: splitting on `/` drops empty and `.` parts
but keeps `..`. -/
def parseRelSegs (fn : String) : List String :=
  (strSplitChar '/' fn).filter (fun s => s != "" && s != ".")

/-- Whether a zip member filename is absolute. -/
def isAbsFilename (fn : String) : Bool :=
  match fn.data with
  | '/' :: _ => true
  | _ => false

/-- `destination / member.filename` in `pathlib`: an absolute right operand
replaces the left one. -/
def pyJoin (dest : List String) (fn : String) : List String :=
  if isAbsFilename fn then parseRelSegs fn else dest ++ parseRelSegs fn

/-- Lexical `Path.resolve()`: process segments left to right, `..` pops the
last segment (a no-op at the root). -/
def resolveSegs (segs : List String) : List String :=
  segs.foldl (fun acc s => if s = ".." then acc.dropLast else acc ++ [s]) []

/-- `str(path)` for an absolute path given by its segments. -/
def renderAbs (segs : List String) : String :=
  "/" ++ String.intercalate "/" segs

/-- The member-validation loop of `safe_extract_zip` (lines 183–193),
with the running total of declared sizes as accumulator. -/
def checkMembers (destination root : List String) (maxTotal : Int) :
    List ZipMember → Int → Except String Unit
  | [], _ => .ok ()
  | m :: rest, total =>
    if is_symlink m then .error "Zip contains symlinks"
    else if !(strStartsWith (renderAbs (resolveSegs (pyJoin destination m.filename)))
              (renderAbs root)) then .error "Zip contains invalid paths"
    else if m.file_size < 0 then .error "Zip contains invalid file size"
    else
      let total := total + m.file_size
      if total > maxTotal then .error "Zip exceeds allowed total size"
      else checkMembers destination root maxTotal rest total

/-- Where `ZipFile.extractall` writes a member: `zipfile` itself drops
empty, `.` and `..` parts of the member name. -/
def extractTarget (destination : List String) (m : ZipMember) : List String :=
  destination ++ (strSplitChar '/' m.filename).filter
    (fun s => s != "" && s != "." && s != "..")

/-- `safe_extract_zip(source_file, destination, max_total_bytes)`
(lines 179–194): validate every member, then extract all of them.  The
success value lists the paths written by `extractall`; on error nothing
is written. -/
def safe_extract_zip (members : List ZipMember) (destination : List String)
    (maxTotal : Int) : Except String (List (List String)) :=
  let root := resolveSegs destination
  match checkMembers destination root maxTotal members 0 with
  | .error e => .error e
  | .ok _ => .ok (members.map (extractTarget destination))

/-- The property "the member's resolved destination path stays within the
destination root": the root's segments are a prefix of the resolved
target's segments. -/
def segsWithin (root p : List String) : Bool :=
  p.take root.length == root

/-- The resolved destination path of a member, as the claims describe it:
the destination root joined with the member's filename, then resolved. -/
def resolvedTarget (destination : List String) (m : ZipMember) : List String :=
  resolveSegs (pyJoin destination m.filename)

/-! ### Binary classification and skip-set check (lines 116–132) -/

/-- The printable/whitespace byte set of `is_binary_file`:
`set(range(32, 127)) | {9, 10, 13}`. -/
def isTextByte (b : Nat) : Bool :=
  (32 ≤ b && b ≤ 126) || b == 9 || b == 10 || b == 13

/-- Number of sampled bytes outside the printable/whitespace set. -/
def nonTextCount (chunk : List Nat) : Nat :=
  (chunk.filter (fun b => !isTextByte b)).length

/-- `is_binary_file(path, sample_size=1024)` (lines 116–129), modelled on
the file's bytes: empty sample is not binary; a null byte is binary;
otherwise binary iff the non-printable ratio exceeds 0.3.  The float
comparison `(non_text / len(chunk)) > 0.3` is modelled by the exact
rational comparison `10 * non_text > 3 * len(chunk)`, which agrees with
the double-precision comparison for every sample of length ≤ 1024.
The `except (UnicodeDecodeError, OSError)` branch (an unreadable file
counts as binary) is outside the model, which has no I/O failures. -/
def is_binary_file (bytes : List Nat) (sample_size : Nat := 1024) : Bool :=
  let chunk := bytes.take sample_size
  if chunk = [] then false
  else if chunk.contains 0 then true
  else 10 * nonTextCount chunk > 3 * chunk.length

/-- `contains_skipped_segment(path)` (lines 131–132): some part of the
relative path is in the skip set. -/
def containsSkippedSegment (parts : List String) : Bool :=
  parts.any (fun part => SKIP_DIRS.contains part)

/-! ### UTF-8 decoding with replacement

Models `Path.read_text(encoding='utf-8', errors='replace')`: decode the
byte list as UTF-8, replacing each invalid byte with U+FFFD. -/

/-- One replacement character. -/
def replacementChar : Char := Char.ofNat 0xFFFD

/-- Whether a byte is a UTF-8 continuation byte `10xxxxxx`. -/
def isCont (b : Nat) : Bool := 0x80 ≤ b && b ≤ 0xBF

/-- Whether `b2` is a valid *second* byte for lead byte `b`, per the
WHATWG/Unicode well-formed byte ranges that CPython's UTF-8 decoder
enforces (`E0` narrows to `A0–BF`, `ED` to `80–9F`, `F0` to `90–BF`,
`F4` to `80–8F`). -/
def validCont2 (b b2 : Nat) : Bool :=
  if b ≤ 0xDF then isCont b2
  else if b == 0xE0 then 0xA0 ≤ b2 && b2 ≤ 0xBF
  else if b == 0xED then 0x80 ≤ b2 && b2 ≤ 0x9F
  else if b ≤ 0xEF then isCont b2
  else if b == 0xF0 then 0x90 ≤ b2 && b2 ≤ 0xBF
  else if b == 0xF4 then 0x80 ≤ b2 && b2 ≤ 0x8F
  else isCont b2

/-- UTF-8 decoding with the `replace` error handler, as CPython
implements it: each *maximal subpart* of an ill-formed sequence — the
lead byte together with the continuation bytes that are still valid for
it — is replaced by a single U+FFFD, and decoding resumes at the first
offending byte. -/
def decodeReplace : List Nat → List Char
  | [] => []
  | b :: rest =>
    if b < 0x80 then
      Char.ofNat b :: decodeReplace rest
    else if 0xC2 ≤ b && b ≤ 0xDF then
      match rest with
      | b2 :: rest2 =>
        if validCont2 b b2 then
          Char.ofNat ((b - 0xC0) * 0x40 + (b2 - 0x80)) :: decodeReplace rest2
        else replacementChar :: decodeReplace (b2 :: rest2)
      | [] => [replacementChar]
    else if 0xE0 ≤ b && b ≤ 0xEF then
      match rest with
      | b2 :: rest2 =>
        if validCont2 b b2 then
          match rest2 with
          | b3 :: rest3 =>
            if isCont b3 then
              Char.ofNat ((b - 0xE0) * 0x1000 + (b2 - 0x80) * 0x40 + (b3 - 0x80)) ::
                decodeReplace rest3
            else replacementChar :: decodeReplace (b3 :: rest3)
          | [] => [replacementChar]
        else replacementChar :: decodeReplace (b2 :: rest2)
      | [] => [replacementChar]
    else if 0xF0 ≤ b && b ≤ 0xF4 then
      match rest with
      | b2 :: rest2 =>
        if validCont2 b b2 then
          match rest2 with
          | b3 :: rest3 =>
            if isCont b3 then
              match rest3 with
              | b4 :: rest4 =>
                if isCont b4 then
                  Char.ofNat ((b - 0xF0) * 0x40000 + (b2 - 0x80) * 0x1000 +
                      (b3 - 0x80) * 0x40 + (b4 - 0x80)) :: decodeReplace rest4
                else replacementChar :: decodeReplace (b4 :: rest4)
              | [] => [replacementChar]
            else replacementChar :: decodeReplace (b3 :: rest3)
          | [] => [replacementChar]
        else replacementChar :: decodeReplace (b2 :: rest2)
      | [] => [replacementChar]
    else replacementChar :: decodeReplace rest

/-- `read_text(encoding='utf-8', errors='replace')` as a string. -/
def readTextReplace (bytes : List Nat) : String :=
  String.mk (decodeReplace bytes)

/-! ### Tree collector (`recursively_collect`, lines 197–257)

The scanned directory is an algebraic tree of entries; `os` enumeration
order is the entry-list order, which the code sorts case-insensitively
(a stable sort by lower-cased name, modelled by insertion sort, which
computes the same list as any stable sort by the same key). -/

/-- A filesystem entry under the workspace root. -/
inductive FSEntry where
  | file (name : String) (symlink : Bool) (size : Nat) (bytes : List Nat)
  | dir (name : String) (symlink : Bool) (children : List FSEntry)
deriving Repr

/-- The entry's name (`entry.name`). -/
def FSEntry.name : FSEntry → String
  | .file n _ _ _ => n
  | .dir n _ _ => n

/-- Whether the entry is a symbolic link (`entry.is_symlink()`). -/
def FSEntry.symlink : FSEntry → Bool
  | .file _ s _ _ => s
  | .dir _ s _ => s

/-- A node of the returned tree: file nodes carry `{name, path, type}`,
directory nodes additionally carry `children`. -/
inductive TreeNode where
  | file (name path : String)
  | dir (name path : String) (children : List TreeNode)
deriving Repr

/-- One record of the returned flat file list. -/
structure FileRecord where
  path : String
  size : Nat
  omitted : Bool
  omittedReason : Option String
  content : Option String
deriving Repr, DecidableEq

/-- Stable insertion of `x` in front of the first element not below it. -/
def insertLe {α : Type} (le : α → α → Bool) (x : α) : List α → List α
  | [] => [x]
  | y :: ys => if le x y then x :: y :: ys else y :: insertLe le x ys

/-- Stable insertion sort; for a total preorder `le` it computes the same
list as any stable sort, in particular Python's `sorted`. -/
def insSort {α : Type} (le : α → α → Bool) : List α → List α
  | [] => []
  | x :: xs => insertLe le x (insSort le xs)

/-- `sorted(root.iterdir(), key=lambda p: p.name.lower())`. -/
def sortEntries (es : List FSEntry) : List FSEntry :=
  insSort (fun a b => !(decide (strLower b.name < strLower a.name))) es

theorem sizeOf_insertLe (le : FSEntry → FSEntry → Bool) (x : FSEntry)
    (l : List FSEntry) : sizeOf (insertLe le x l) = 1 + sizeOf x + sizeOf l := by
  induction l with
  | nil => simp [insertLe]
  | cons y ys ih =>
    simp only [insertLe]
    split
    · simp [List.cons.sizeOf_spec]
    · simp [List.cons.sizeOf_spec, ih]
      omega

theorem sizeOf_insSort (le : FSEntry → FSEntry → Bool) (l : List FSEntry) :
    sizeOf (insSort le l) = sizeOf l := by
  induction l with
  | nil => rfl
  | cons x xs ih =>
    simp only [insSort, sizeOf_insertLe, List.cons.sizeOf_spec, ih]

theorem sizeOf_sortEntries (l : List FSEntry) :
    sizeOf (sortEntries l) = sizeOf l := sizeOf_insSort _ l

/-- `(rel_path / entry.name).as_posix()`: join the relative segments with
`/`. -/
def asPosix (parts : List String) : String :=
  String.intercalate "/" parts

/-- Python's `str.lstrip('./')`: remove *all* leading characters belonging
to the set `{'.', '/'}`. -/
def lstripDotSlash (s : String) : String :=
  String.mk (s.data.dropWhile (fun c => c = '.' || c = '/'))

/-- The recorded path of an entry (line 208):
`(rel_path / entry.name).as_posix().lstrip('./')`. -/
def nodePath (rel : List String) (name : String) : String :=
  lstripDotSlash (asPosix (rel ++ [name]))

mutual

/-- `recursively_collect(root, rel_path)` (lines 197–257): sort the
entries case-insensitively and run the per-entry loop. -/
def recursively_collect (entries : List FSEntry) (rel : List String) :
    List TreeNode × List FileRecord :=
  collectLoop (sortEntries entries) rel
termination_by 2 * sizeOf entries + 1
decreasing_by
  simp only [sizeOf_sortEntries]
  omega

/-- The body of the `for entry in sorted(...)` loop, one entry at a time:
skip-set pruning, symlink skipping, directory recursion, file
classification. -/
def collectLoop : List FSEntry → List String → List TreeNode × List FileRecord
  | [], _ => ([], [])
  | e :: rest, rel =>
    if containsSkippedSegment (rel ++ [e.name]) then collectLoop rest rel
    else if e.symlink then collectLoop rest rel
    else
      let np := nodePath rel e.name
      match e with
      | .dir name _ children =>
        let cpair := recursively_collect children (rel ++ [name])
        let rpair := collectLoop rest rel
        (TreeNode.dir name np cpair.1 :: rpair.1, cpair.2 ++ rpair.2)
      | .file name _ size bytes =>
        let rpair := collectLoop rest rel
        if is_binary_file bytes then
          (TreeNode.file name np :: rpair.1,
           ⟨np, size, true, some "binary", none⟩ :: rpair.2)
        else if size > MAX_FILE_BYTES then
          (TreeNode.file name np :: rpair.1,
           ⟨np, size, true, some "large", none⟩ :: rpair.2)
        else
          (TreeNode.file name np :: rpair.1,
           ⟨np, size, false, none, some (readTextReplace bytes)⟩ :: rpair.2)
termination_by l _ => 2 * sizeOf l
decreasing_by
  all_goals simp_wf
  all_goals omega

end

/-! ### Ingestion orchestrator dispatch (`parse_repo`, lines 303–336) -/

/-- Which branch the `/parse` endpoint takes for a given combination of
form inputs. -/
inductive ParseBranch where
  | rejectMissing
  | zipBranch
  | cloneBranch
deriving Repr, DecidableEq

/-- Python truthiness of the optional `repoUrl` form field: absent or
empty is falsy. -/
def pyTruthyStr : Option String → Bool
  | none => false
  | some s => !s.isEmpty

/-- The input-dispatch logic of `parse_repo` (lines 308–324):
`if not repoUrl and not zipFile: 422`, then `if zipFile is not None` the
upload branch, `elif repoUrl` the clone branch. -/
def parse_repo_branch (repoUrl : Option String) (zipFile : Option String) :
    ParseBranch :=
  if !pyTruthyStr repoUrl && zipFile.isNone then .rejectMissing
  else if !zipFile.isNone then .zipBranch
  else .cloneBranch

/-! ### URL validator (`normalize_repo_url`, lines 135–154)

`urllib.parse.urlparse` is modelled on character lists, following the
CPython `urlsplit`/`_splitparams` algorithm for inputs free of the
control characters that CPython strips up front. -/

/-- A character allowed in a URL scheme
(`scheme_chars = letters ++ digits ++ '+-.'`). -/
def isSchemeChar (c : Char) : Bool :=
  c.isAlphanum || c == '+' || c == '-' || c == '.'

/-- The result of `urllib.parse.urlparse` restricted to the attributes the
code reads. -/
structure UrlParts where
  scheme : List Char
  netloc : List Char
  path : List Char
  query : List Char
  fragment : List Char
  username : Option (List Char)
  password : Option (List Char)
deriving Repr, DecidableEq

/-- The scheme-splitting step of `urlsplit`: a scheme is recognised when a
`:` occurs after a nonempty run of scheme characters starting with an
ASCII letter; the scheme is lower-cased. -/
def schemeSplit (url : List Char) : List Char × List Char :=
  match splitFirstChar ':' url with
  | some (pre, post) =>
    if (match pre with | c :: _ => c.isAlpha | [] => false) && pre.all isSchemeChar
    then (pre.map Char.toLower, post) else ([], url)
  | none => ([], url)

/-- The netloc-splitting step of `urlsplit` (`if url[:2] == '//'`): after
a leading `//`, the netloc extends to the first `/`, `?` or `#`. -/
def netlocSplit (url : List Char) : List Char × List Char :=
  if listStartsWith "//".data url then
    ((url.drop 2).takeWhile (fun c => !(c = '/' || c = '?' || c = '#')),
     (url.drop 2).dropWhile (fun c => !(c = '/' || c = '?' || c = '#')))
  else ([], url)

/-- `_splitparams`, applied by `urlparse` when the path contains `;`:
parameters after the first `;` of the last path segment are removed from
the path. -/
def splitParamsPath (p : List Char) : List Char :=
  if ';' ∈ p then
    let lastSeg := (p.reverse.takeWhile (fun c => c ≠ '/')).reverse
    if ';' ∈ lastSeg then
      p.take (p.length - lastSeg.length) ++ lastSeg.takeWhile (fun c => c ≠ ';')
    else p
  else p

/-- The `username`/`password` properties of a parse result: the userinfo
before the last `@` of the netloc, split at its first `:`. -/
def netlocCreds (netloc : List Char) : Option (List Char) × Option (List Char) :=
  if '@' ∈ netloc then
    let hostLen := (netloc.reverse.takeWhile (fun c => c ≠ '@')).length
    let userinfo := netloc.take (netloc.length - hostLen - 1)
    if ':' ∈ userinfo then
      (some (userinfo.takeWhile (fun c => c ≠ ':')),
       some ((userinfo.dropWhile (fun c => c ≠ ':')).drop 1))
    else (some userinfo, none)
  else (none, none)

/-- A WHATWG C0-control or space character (code point ≤ `U+0020`),
stripped from the front of the URL by `urlsplit` (CVE-2023-24329 fix,
present in the CPython ≥ 3.10 this code runs on). -/
def isC0ControlOrSpace (c : Char) : Bool := c.toNat ≤ 0x20

/-- One of `_UNSAFE_URL_BYTES_TO_REMOVE` (`\t`, `\r`, `\n`), removed
everywhere in the URL by `urlsplit`. -/
def isUnsafeUrlChar (c : Char) : Bool := c = '\t' || c = '\r' || c = '\n'

/-- The preprocessing `urlsplit` applies before parsing:
`url.lstrip(_WHATWG_C0_CONTROL_OR_SPACE)` (leading only — trailing
characters are deliberately preserved) followed by removal of every tab,
carriage return and newline. -/
def preprocessUrl (url : List Char) : List Char :=
  (url.dropWhile isC0ControlOrSpace).filter (fun c => !isUnsafeUrlChar c)

/-- The parsing pipeline of `urllib.parse.urlparse` after preprocessing:
scheme, netloc, fragment, query, params and userinfo extraction. -/
def urlparseCore (url : List Char) : UrlParts :=
  let sp := schemeSplit url
  let scheme := sp.1
  let np := netlocSplit sp.2
  let netloc := np.1
  let fs := match splitFirstChar '#' np.2 with
    | some (pre, post) => (pre, post)
    | none => (np.2, [])
  let qs := match splitFirstChar '?' fs.1 with
    | some (pre, post) => (pre, post)
    | none => (fs.1, [])
  let path := splitParamsPath qs.1
  let creds := netlocCreds netloc
  ⟨scheme, netloc, path, qs.2, fs.2, creds.1, creds.2⟩

/-- `urllib.parse.urlparse` on the characters of the URL:
control-character preprocessing, then the parsing pipeline. -/
def urlparse (url0 : List Char) : UrlParts :=
  urlparseCore (preprocessUrl url0)

/-- Python truthiness of `parsed.username` / `parsed.password`:
`None` and the empty string are falsy. -/
def optTruthy : Option (List Char) → Bool
  | none => false
  | some l => !l.isEmpty

/-- `ALLOWED_GIT_HOSTS` with its default configuration
`'github.com,www.github.com'`, already stripped and lower-cased. -/
def ALLOWED_GIT_HOSTS : List (List Char) :=
  ["github.com".data, "www.github.com".data]

/-- `repo.endswith('.git')`. -/
def endsWithGit (l : List Char) : Bool :=
  ".git".data.length ≤ l.length && l.drop (l.length - 4) == ".git".data

/-- Strip one trailing `.git` (lines 150–151). -/
def stripGitSuffix (l : List Char) : List Char :=
  if endsWithGit l then l.take (l.length - 4) else l

/-- The host computation of line 143: `parsed.netloc.split(':')[0].lower()`. -/
def hostOf (netloc : List Char) : List Char :=
  (netloc.takeWhile (fun c => c ≠ ':')).map Char.toLower

/-- The non-empty path segments of line 146:
`[part for part in parsed.path.split('/') if part]`. -/
def pathParts (path : List Char) : List (List Char) :=
  (splitOnChar '/' path).filter (fun s => !s.isEmpty)

/-- The canonical clone URL of line 154:
`f'https://{host}/{owner}/{repo}.git'`. -/
def canonicalCloneUrl (host owner repo : List Char) : String :=
  String.mk ("https://".data ++ host ++ '/' :: owner ++ '/' :: repo ++ ".git".data)

/-- `normalize_repo_url(repo_url)` (lines 135–154). -/
def normalize_repo_url (repo_url : String) : Except String String :=
  if repo_url.length > 2048 then .error "Repo URL is too long"
  else
    let parsed := urlparse repo_url.data
    if !(parsed.scheme == "http".data || parsed.scheme == "https".data) then
      .error "Only http/https repo URLs are allowed"
    else if optTruthy parsed.username || optTruthy parsed.password ||
        !parsed.query.isEmpty || !parsed.fragment.isEmpty then
      .error "Repo URL contains unsupported credentials or query params"
    else
      let host := hostOf parsed.netloc
      if !ALLOWED_GIT_HOSTS.contains host then .error "Repo host is not allowed"
      else
        match pathParts parsed.path with
        | owner :: repo0 :: _ =>
          let repo := stripGitSuffix repo0
          if owner.isEmpty || repo.isEmpty then
            .error "Repo URL must include owner/repo"
          else .ok (canonicalCloneUrl host owner repo)
        | _ => .error "Repo URL must include owner/repo"

/-- A "plain" URL character: alphanumeric or `-`, `_`, `.`.  Host, owner
and repository names made of plain characters parse as single URL
components (they contain no separator the parser reacts to); the claims
about URLs "of the form `https://host/owner/repo`" quantify over such
components. -/
def plainChar (c : Char) : Bool :=
  c.isAlphanum || c == '-' || c == '_' || c == '.'

/-! ### Theorems settling the claims -/

/-- C1: the claim states that any archive with a member whose resolved
destination escapes the destination root is rejected with nothing
written.  The code's containment check compares rendered path *strings*
with `startswith` and misses sibling directories whose name extends the
root's name: for destination `/tmp/ws/project`, the member
`../project-evil/x` resolves to `/tmp/ws/project-evil/x`, which escapes
the root, yet `safe_extract_zip` accepts the archive and extraction
proceeds (the string `/tmp/ws/project-evil/x` starts with
`/tmp/ws/project`). -/
theorem c1_escaping_member_extracted_not_rejected :
    segsWithin (resolveSegs ["tmp", "ws", "project"])
        (resolvedTarget ["tmp", "ws", "project"]
          ⟨"../project-evil/x", 5, 0⟩) = false
    ∧ safe_extract_zip [⟨"../project-evil/x", 5, 0⟩] ["tmp", "ws", "project"]
        1000000 = .ok [["tmp", "ws", "project", "project-evil", "x"]] :=
  ⟨rfl, rfl⟩

/-- The validation loop fails whenever the declared sizes still to be
accumulated push the running total above the ceiling. -/
theorem checkMembers_sum_exceeds (destination root : List String)
    (maxTotal : Int) :
    ∀ (ms : List ZipMember) (acc : Int), acc ≤ maxTotal →
      maxTotal < acc + (ms.map (fun m => m.file_size)).sum →
      ∃ e, checkMembers destination root maxTotal ms acc = .error e := by
  intro ms
  induction ms with
  | nil =>
    intro acc h1 h2
    simp only [List.map_nil, List.sum_nil, add_zero] at h2
    omega
  | cons m rest ih =>
    intro acc h1 h2
    simp only [List.map_cons, List.sum_cons] at h2
    simp only [checkMembers]
    split
    · exact ⟨_, rfl⟩
    · split
      · exact ⟨_, rfl⟩
      · split
        · exact ⟨_, rfl⟩
        · split
          · exact ⟨_, rfl⟩
          · rename_i hnot
            exact ih (acc + m.file_size) (by omega) (by omega)

/-- C2: an archive whose declared member sizes sum to more than the
(non-negative) ceiling is rejected by `safe_extract_zip` during the
pre-extraction validation pass: the result is an error, so no member is
extracted, whatever the members' actual compressed bytes are. -/
theorem c2_declared_size_bomb_rejected (members : List ZipMember)
    (destination : List String) (maxTotal : Int) (hmax : 0 ≤ maxTotal)
    (hsum : maxTotal < (members.map (fun m => m.file_size)).sum) :
    ∃ e, safe_extract_zip members destination maxTotal = .error e := by
  obtain ⟨e, he⟩ := checkMembers_sum_exceeds destination
    (resolveSegs destination) maxTotal members 0 hmax (by simpa using hsum)
  exact ⟨e, by simp [safe_extract_zip, he]⟩

/-- Witness for C2: two members declaring 150 and 100 bytes against a
200-byte ceiling are rejected. -/
theorem c2_declared_size_bomb_rejected_witness :
    (0 : Int) ≤ 200
    ∧ (200 : Int) < (([⟨"a.txt", 150, 0⟩, ⟨"b.txt", 100, 0⟩] :
        List ZipMember).map (fun m => m.file_size)).sum
    ∧ ∃ e, safe_extract_zip [⟨"a.txt", 150, 0⟩, ⟨"b.txt", 100, 0⟩]
        ["tmp", "x"] 200 = .error e :=
  ⟨by norm_num, by decide,
   c2_declared_size_bomb_rejected _ _ _ (by norm_num) (by decide)⟩

/-- Counterexample to C4: a request carrying both a repository URL and an
uploaded archive is *not* rejected — `parse_repo` only rejects when both
inputs are missing, and its `if zipFile is not None` branch then
processes the archive. -/
theorem c4_counterexample_both_inputs_not_rejected :
    parse_repo_branch (some "https://github.com/o/r") (some "repo.zip")
      = .zipBranch
    ∧ ParseBranch.zipBranch ≠ ParseBranch.rejectMissing :=
  ⟨rfl, by decide⟩

/-- C4 amended, a full characterization of the dispatch: whenever an
archive is supplied — in particular when a URL is supplied as well — the
archive branch is taken (the URL is ignored), never the rejection; a
nonempty URL alone takes the clone branch; and the request is rejected
as a client error exactly when the URL is absent or empty and no archive
is supplied. -/
theorem c4_amended_both_inputs_take_zip_branch :
    (∀ (ru : Option String) (f : String),
      parse_repo_branch ru (some f) = .zipBranch)
    ∧ (∀ u : String, u ≠ "" → parse_repo_branch (some u) none = .cloneBranch)
    ∧ (∀ (ru zf : Option String),
        parse_repo_branch ru zf = .rejectMissing
          ↔ pyTruthyStr ru = false ∧ zf = none) := by
  refine ⟨fun ru f => ?_, fun u hu => ?_, fun ru zf => ?_⟩
  · simp [parse_repo_branch]
  · have hne : u.isEmpty = false := by
      cases he : u.isEmpty
      · rfl
      · exact absurd ((String.isEmpty_iff u).mp he) hu
    simp [parse_repo_branch, pyTruthyStr, hne]
  · cases zf with
    | some f => simp [parse_repo_branch]
    | none => cases hru : pyTruthyStr ru <;> simp [parse_repo_branch, hru]

/-- Witness for C4 amended: both inputs present take the archive branch;
a nonempty URL alone takes the clone branch; no input at all is the
rejection case of the characterization. -/
theorem c4_amended_both_inputs_take_zip_branch_witness :
    parse_repo_branch (some "https://github.com/o/r") (some "a.zip")
      = .zipBranch
    ∧ ("https://github.com/o/r" : String) ≠ ""
    ∧ parse_repo_branch (some "https://github.com/o/r") none = .cloneBranch
    ∧ (parse_repo_branch none none = .rejectMissing
        ↔ pyTruthyStr none = false ∧ (none : Option String) = none) :=
  ⟨c4_amended_both_inputs_take_zip_branch.1 (some "https://github.com/o/r")
      "a.zip",
   by decide,
   c4_amended_both_inputs_take_zip_branch.2.1 "https://github.com/o/r"
     (by decide),
   c4_amended_both_inputs_take_zip_branch.2.2 none none⟩

/-- C9: the claim states recorded paths keep leading dots of top-level
names.  The code computes `(rel_path / entry.name).as_posix().lstrip('./')`,
and Python's `lstrip('./')` removes *every* leading `.` or `/` character:
a top-level file named `.gitignore` is recorded with path `gitignore`,
not `.gitignore`. -/
theorem c9_top_level_dotfile_path_mangled :
    recursively_collect [FSEntry.file ".gitignore" false 2 [104, 105]] []
      = ([TreeNode.file ".gitignore" "gitignore"],
         [⟨"gitignore", 2, false, none, some "hi"⟩])
    ∧ ("gitignore" : String) ≠ ".gitignore" := by
  constructor
  · have h0 : containsSkippedSegment [".gitignore"] = false := by decide
    have h1 : is_binary_file [104, 105] = false := by decide
    have h2 : ¬ (MAX_FILE_BYTES < 2) := by decide
    have h3 : nodePath [] ".gitignore" = "gitignore" := by rfl
    have h4 : readTextReplace [104, 105] = "hi" := by rfl
    simp [recursively_collect, collectLoop, sortEntries, insSort, insertLe,
      FSEntry.name, FSEntry.symlink, h0, h1, h2, h3, h4]
  · decide

/-- C10: a zero-byte file samples an empty chunk, so `is_binary_file`
returns `False` through the `if not chunk` guard — the non-printable
ratio (whose denominator would be the sample length) is never computed —
and the collector records the file with `omitted=false` and empty
content. -/
theorem c10_empty_file_text_with_empty_content :
    (List.take 1024 ([] : List Nat) = []) ∧ is_binary_file [] = false
    ∧ recursively_collect [FSEntry.file "empty.txt" false 0 []] []
        = ([TreeNode.file "empty.txt" "empty.txt"],
           [⟨"empty.txt", 0, false, none, some ""⟩]) := by
  refine ⟨rfl, rfl, ?_⟩
  have h0 : containsSkippedSegment ["empty.txt"] = false := by decide
  have h1 : is_binary_file [] = false := by decide
  have h2 : ¬ (MAX_FILE_BYTES < 0) := by decide
  have h3 : nodePath [] "empty.txt" = "empty.txt" := by rfl
  have h4 : readTextReplace [] = "" := by rfl
  simp [recursively_collect, collectLoop, sortEntries, insSort, insertLe,
    FSEntry.name, FSEntry.symlink, h0, h1, h2, h3, h4]

/-- `is_binary_file` agrees with the specification's wording: binary iff
the leading ≤1024-byte sample contains a null byte or more than 30% of
the sampled bytes are outside the printable/whitespace set. -/
theorem is_binary_file_eq_spec (bytes : List Nat) :
    is_binary_file bytes
      = ((bytes.take 1024).contains 0 ||
         decide (10 * nonTextCount (bytes.take 1024)
           > 3 * (bytes.take 1024).length)) := by
  unfold is_binary_file
  by_cases h : bytes.take 1024 = []
  · simp [h, nonTextCount]
  · simp only [h, if_false]
    by_cases h0 : (bytes.take 1024).contains 0 = true
    · simp [h0]
    · simp [h0]

/-- C5: a regular, non-skipped file entry is recorded as
`omitted=true, omittedReason=binary, content=null` when its leading
sample of up to 1024 bytes contains a null byte or more than 30% bytes
outside the printable/whitespace set; otherwise as
`omitted=true, omittedReason=large, content=null` when its size strictly
exceeds `MAX_FILE_BYTES` (a file of exactly the ceiling is kept);
otherwise as `omitted=false` with its bytes decoded with replacement.
The walk never fails: a record and a tree node are always produced. -/
theorem c5_file_classification (name : String) (rel : List String)
    (size : Nat) (bytes : List Nat)
    (hskip : containsSkippedSegment (rel ++ [name]) = false) :
    collectLoop [FSEntry.file name false size bytes] rel =
      ([TreeNode.file name (nodePath rel name)],
       [if (bytes.take 1024).contains 0 ||
            decide (10 * nonTextCount (bytes.take 1024)
              > 3 * (bytes.take 1024).length) then
          ⟨nodePath rel name, size, true, some "binary", none⟩
        else if size > MAX_FILE_BYTES then
          ⟨nodePath rel name, size, true, some "large", none⟩
        else
          ⟨nodePath rel name, size, false, none,
           some (readTextReplace bytes)⟩]) := by
  simp only [collectLoop, FSEntry.name, FSEntry.symlink, hskip,
    Bool.false_eq_true, if_false, is_binary_file_eq_spec]
  split_ifs <;> rfl

/-- Witness for C5: a file with a null byte is omitted as binary; a
513-kilobyte text file is omitted as large; a small text file keeps its
content. -/
theorem c5_file_classification_witness :
    containsSkippedSegment ["data.bin"] = false
    ∧ collectLoop [FSEntry.file "data.bin" false 3 [0, 1, 2]] []
        = ([TreeNode.file "data.bin" "data.bin"],
           [⟨"data.bin", 3, true, some "binary", none⟩])
    ∧ collectLoop [FSEntry.file "big.txt" false 512001 [104]] []
        = ([TreeNode.file "big.txt" "big.txt"],
           [⟨"big.txt", 512001, true, some "large", none⟩])
    ∧ collectLoop [FSEntry.file "exact.txt" false 512000 [104, 105]] []
        = ([TreeNode.file "exact.txt" "exact.txt"],
           [⟨"exact.txt", 512000, false, none, some "hi"⟩]) :=
  ⟨by decide,
   (c5_file_classification "data.bin" [] 3 [0, 1, 2] (by decide)).trans rfl,
   (c5_file_classification "big.txt" [] 512001 [104] (by decide)).trans rfl,
   (c5_file_classification "exact.txt" [] 512000 [104, 105]
     (by decide)).trans rfl⟩

/-- C6: an entry whose path relative to the workspace root contains a
skipped segment contributes nothing to the collector's output: wherever
it occurs in the (sorted) iteration, the resulting tree and file list
are exactly those of the iteration without it, so neither the entry nor
any descendant of it — however deep its subtree — is emitted. -/
theorem c6_skipped_entry_contributes_nothing (xs ys : List FSEntry)
    (e : FSEntry) (rel : List String)
    (hskip : containsSkippedSegment (rel ++ [e.name]) = true) :
    collectLoop (xs ++ e :: ys) rel = collectLoop (xs ++ ys) rel := by
  induction xs with
  | nil => simp [collectLoop, hskip]
  | cons x xs ih =>
    simp only [List.cons_append, collectLoop]
    rw [ih]

/-- Witness for C6: a `node_modules` directory with a nested file is
pruned from the output. -/
theorem c6_skipped_entry_contributes_nothing_witness :
    containsSkippedSegment ["node_modules"] = true
    ∧ collectLoop
        ([] ++ FSEntry.dir "node_modules" false
            [FSEntry.file "x.txt" false 7 [115]] :: [FSEntry.file "a.txt" false 1 [97]]) []
      = collectLoop ([] ++ [FSEntry.file "a.txt" false 1 [97]]) [] :=
  ⟨by decide,
   c6_skipped_entry_contributes_nothing []
     [FSEntry.file "a.txt" false 1 [97]]
     (FSEntry.dir "node_modules" false [FSEntry.file "x.txt" false 7 [115]])
     [] (by decide)⟩

theorem plainChar_ne {c d : Char} (hc : plainChar c = true)
    (hd : plainChar d = false) : c ≠ d := by
  intro he
  subst he
  simp [hc] at hd

theorem not_mem_of_plain {d : Char} {l : List Char}
    (hl : ∀ c ∈ l, plainChar c = true) (hd : plainChar d = false) : d ∉ l := by
  intro hmem
  have := hl d hmem
  simp [this] at hd

theorem splitFirstChar_not_mem {c : Char} {l : List Char} (h : c ∉ l) :
    splitFirstChar c l = none := by
  induction l with
  | nil => rfl
  | cons x xs ih =>
    simp only [List.mem_cons, not_or] at h
    rw [splitFirstChar, if_neg (fun hxc => h.1 hxc.symm), ih h.2]

theorem splitFirstChar_append {c : Char} {xs ys : List Char} (h : c ∉ xs) :
    splitFirstChar c (xs ++ c :: ys) = some (xs, ys) := by
  induction xs with
  | nil => simp [splitFirstChar]
  | cons x xs ih =>
    simp only [List.mem_cons, not_or] at h
    rw [List.cons_append, splitFirstChar, if_neg (fun hxc => h.1 hxc.symm),
      ih h.2]

theorem takeWhile_append_all {p : Char → Bool} {xs : List Char} {y : Char}
    {ys : List Char} (hxs : ∀ x ∈ xs, p x = true) (hy : p y = false) :
    (xs ++ y :: ys).takeWhile p = xs := by
  induction xs with
  | nil => simp [List.takeWhile, hy]
  | cons x xs ih =>
    have hx := hxs x (by simp)
    simp [List.takeWhile_cons, hx, ih (fun a ha => hxs a (by simp [ha]))]

theorem dropWhile_append_all {p : Char → Bool} {xs : List Char} {y : Char}
    {ys : List Char} (hxs : ∀ x ∈ xs, p x = true) (hy : p y = false) :
    (xs ++ y :: ys).dropWhile p = y :: ys := by
  induction xs with
  | nil => simp [List.dropWhile, hy]
  | cons x xs ih =>
    have hx := hxs x (by simp)
    simp [List.dropWhile_cons, hx, ih (fun a ha => hxs a (by simp [ha]))]

theorem takeWhile_all {p : Char → Bool} {l : List Char}
    (hl : ∀ x ∈ l, p x = true) : l.takeWhile p = l := by
  induction l with
  | nil => rfl
  | cons x xs ih =>
    have hx := hl x (by simp)
    simp [List.takeWhile_cons, hx, ih (fun a ha => hl a (by simp [ha]))]

theorem splitOnChar_ne_nil (c : Char) (l : List Char) : splitOnChar c l ≠ [] := by
  cases l with
  | nil => simp [splitOnChar]
  | cons x xs =>
    rw [splitOnChar]
    split
    · split <;> simp
    · split <;> simp

theorem splitOnChar_not_mem {c : Char} {l : List Char} (h : c ∉ l) :
    splitOnChar c l = [l] := by
  induction l with
  | nil => rfl
  | cons x xs ih =>
    simp only [List.mem_cons, not_or] at h
    rw [splitOnChar, ih h.2]
    simp only []
    rw [if_neg (fun hxc => h.1 hxc.symm)]

theorem splitOnChar_append {c : Char} {xs ys : List Char} (h : c ∉ xs) :
    splitOnChar c (xs ++ c :: ys) = xs :: splitOnChar c ys := by
  induction xs with
  | nil =>
    simp only [List.nil_append]
    rcases hs : splitOnChar c ys with _ | ⟨h2, t⟩
    · exact absurd hs (splitOnChar_ne_nil c ys)
    · rw [splitOnChar, hs]
      simp
  | cons x xs ih =>
    simp only [List.mem_cons, not_or] at h
    rw [List.cons_append, splitOnChar, ih h.2]
    simp only []
    rw [if_neg (fun hxc => h.1 hxc.symm)]

theorem plain_not_sep3 {c : Char} (hc : plainChar c = true) :
    (!(decide (c = '/') || decide (c = '?') || decide (c = '#'))) = true := by
  have h1 : c ≠ '/' := plainChar_ne hc (by decide)
  have h2 : c ≠ '?' := plainChar_ne hc (by decide)
  have h3 : c ≠ '#' := plainChar_ne hc (by decide)
  simp [h1, h2, h3]

theorem not_mem_plain_slash {d : Char} (hd : plainChar d = false) (hds : d ≠ '/')
    {l : List Char} (hl : ∀ c ∈ l, plainChar c = true ∨ c = '/') : d ∉ l := by
  intro hmem
  rcases hl d hmem with h | h
  · simp [h] at hd
  · exact hds h

theorem plain_not_unsafe {c : Char} (hc : plainChar c = true) :
    (!isUnsafeUrlChar c) = true := by
  have h1 : c ≠ '\t' := plainChar_ne hc (by decide)
  have h2 : c ≠ '\r' := plainChar_ne hc (by decide)
  have h3 : c ≠ '\n' := plainChar_ne hc (by decide)
  simp [isUnsafeUrlChar, h1, h2, h3]

theorem filter_eq_self_of_all {p : Char → Bool} {l : List Char}
    (hl : ∀ c ∈ l, p c = true) : l.filter p = l := by
  induction l with
  | nil => rfl
  | cons x xs ih =>
    rw [List.filter_cons, if_pos (hl x (by simp)),
      ih (fun a ha => hl a (by simp [ha]))]

theorem preprocessUrl_plain (h rest : List Char)
    (hh : ∀ c ∈ h, plainChar c = true)
    (hr : ∀ c ∈ rest, plainChar c = true ∨ c = '/') :
    preprocessUrl ("https://".data ++ h ++ '/' :: rest)
      = "https://".data ++ h ++ '/' :: rest := by
  rw [preprocessUrl]
  have he : "https://".data ++ h ++ '/' :: rest
      = 'h' :: ("ttps://".data ++ h ++ '/' :: rest) := rfl
  have hdrop : ("https://".data ++ h ++ '/' :: rest).dropWhile isC0ControlOrSpace
      = "https://".data ++ h ++ '/' :: rest := by
    rw [he, List.dropWhile_cons]
    simp only [show isC0ControlOrSpace 'h' = false by decide]
    rfl
  rw [hdrop]
  apply filter_eq_self_of_all
  intro c hc
  rcases List.mem_append.mp hc with hc1 | hc4
  · rcases List.mem_append.mp hc1 with hc2 | hc3
    · have hconc : ∀ d ∈ "https://".data, (!isUnsafeUrlChar d) = true := by decide
      exact hconc c hc2
    · exact plain_not_unsafe (hh c hc3)
  · rcases List.mem_cons.mp hc4 with hc5 | hc6
    · subst hc5; decide
    · rcases hr c hc6 with hp | hp
      · exact plain_not_unsafe hp
      · subst hp; decide

theorem schemeSplit_https (rest : List Char) :
    schemeSplit ("https://".data ++ rest) = ("https".data, '/' :: '/' :: rest) := by
  have he : "https://".data ++ rest = "https".data ++ ':' :: ('/' :: '/' :: rest) := rfl
  rw [he, schemeSplit, splitFirstChar_append (by decide)]
  simp only []
  rw [if_pos (by decide)]
  have hm : ("https".data).map Char.toLower = "https".data := by decide
  rw [hm]

theorem netlocSplit_plain (h : List Char) (y : Char) (ys : List Char)
    (hh : ∀ c ∈ h, plainChar c = true)
    (hy : (!(decide (y = '/') || decide (y = '?') || decide (y = '#'))) = false) :
    netlocSplit ('/' :: '/' :: (h ++ y :: ys)) = (h, y :: ys) := by
  rw [netlocSplit, if_pos (by rfl)]
  have hd : (('/' :: '/' :: (h ++ y :: ys)).drop 2) = h ++ y :: ys := rfl
  rw [hd, takeWhile_append_all (fun x hx => plain_not_sep3 (hh x hx)) hy,
    dropWhile_append_all (fun x hx => plain_not_sep3 (hh x hx)) hy]

theorem urlparseCore_https_plain (h rest : List Char)
    (hh : ∀ c ∈ h, plainChar c = true)
    (hr : ∀ c ∈ rest, plainChar c = true ∨ c = '/') :
    urlparseCore ("https://".data ++ h ++ '/' :: rest)
      = ⟨"https".data, h, '/' :: rest, [], [], none, none⟩ := by
  have hsch := schemeSplit_https (h ++ '/' :: rest)
  have hnet := netlocSplit_plain h '/' rest hh (by decide)
  have hfrag : splitFirstChar '#' ('/' :: rest) = none :=
    splitFirstChar_not_mem (by
      intro hmem
      simp only [List.mem_cons] at hmem
      rcases hmem with hmem | hmem
      · exact absurd hmem (by decide)
      · exact absurd hmem (not_mem_plain_slash (by decide) (by decide) hr))
  have hquery : splitFirstChar '?' ('/' :: rest) = none :=
    splitFirstChar_not_mem (by
      intro hmem
      simp only [List.mem_cons] at hmem
      rcases hmem with hmem | hmem
      · exact absurd hmem (by decide)
      · exact absurd hmem (not_mem_plain_slash (by decide) (by decide) hr))
  have hparams : splitParamsPath ('/' :: rest) = '/' :: rest := by
    rw [splitParamsPath, if_neg]
    intro hmem
    simp only [List.mem_cons] at hmem
    rcases hmem with hmem | hmem
    · exact absurd hmem (by decide)
    · exact absurd hmem (not_mem_plain_slash (by decide) (by decide) hr)
  have hcreds : netlocCreds h = (none, none) := by
    rw [netlocCreds, if_neg]
    exact not_mem_of_plain hh (by decide)
  show urlparseCore ("https://".data ++ (h ++ '/' :: rest)) = _
  simp only [urlparseCore, hsch, hnet, hfrag, hquery, hparams, hcreds]

theorem urlparse_https_plain (h rest : List Char)
    (hh : ∀ c ∈ h, plainChar c = true)
    (hr : ∀ c ∈ rest, plainChar c = true ∨ c = '/') :
    urlparse ("https://".data ++ h ++ '/' :: rest)
      = ⟨"https".data, h, '/' :: rest, [], [], none, none⟩ := by
  rw [urlparse, preprocessUrl_plain h rest hh hr]
  exact urlparseCore_https_plain h rest hh hr

theorem pathParts_two (o r : List Char) (ho : ∀ c ∈ o, plainChar c = true)
    (hone : o ≠ []) (hr : ∀ c ∈ r, plainChar c = true) (hrne : r ≠ []) :
    pathParts ('/' :: (o ++ '/' :: r)) = [o, r] := by
  have h1 : splitOnChar '/' ('/' :: (o ++ '/' :: r))
      = [] :: splitOnChar '/' (o ++ '/' :: r) := by
    have he : ('/' :: (o ++ '/' :: r)) = [] ++ '/' :: (o ++ '/' :: r) := rfl
    rw [he, splitOnChar_append (by simp)]
  have h2 : splitOnChar '/' (o ++ '/' :: r) = o :: splitOnChar '/' r :=
    splitOnChar_append (not_mem_of_plain ho (by decide))
  have h3 : splitOnChar '/' r = [r] :=
    splitOnChar_not_mem (not_mem_of_plain hr (by decide))
  rw [pathParts, h1, h2, h3]
  simp [hone, hrne]

theorem normalize_repo_url_plain (h o r : List Char)
    (hh : ∀ c ∈ h, plainChar c = true) (hhl : h.map Char.toLower = h)
    (hhallow : ALLOWED_GIT_HOSTS.contains h = true)
    (ho : ∀ c ∈ o, plainChar c = true) (hone : o ≠ [])
    (hr : ∀ c ∈ r, plainChar c = true) (hrne : r ≠ [])
    (hlen : ("https://".data ++ h ++ '/' :: (o ++ '/' :: r)).length ≤ 2048) :
    normalize_repo_url (String.mk ("https://".data ++ h ++ '/' :: (o ++ '/' :: r)))
      = if stripGitSuffix r = [] then .error "Repo URL must include owner/repo"
        else .ok (canonicalCloneUrl h o (stripGitSuffix r)) := by
  have hlen2 : ¬((String.mk ("https://".data ++ h ++ '/' :: (o ++ '/' :: r))).length
      > 2048) := by
    show ¬(("https://".data ++ h ++ '/' :: (o ++ '/' :: r)).length > 2048)
    omega
  have hdata : (String.mk ("https://".data ++ h ++ '/' :: (o ++ '/' :: r))).data
      = "https://".data ++ h ++ '/' :: (o ++ '/' :: r) := rfl
  have hup := urlparse_https_plain h (o ++ '/' :: r) hh (by
    intro c hc
    simp only [List.mem_append, List.mem_cons] at hc
    rcases hc with hc | hc | hc
    · exact Or.inl (ho c hc)
    · exact Or.inr hc
    · exact Or.inl (hr c hc))
  have hhost : hostOf h = h := by
    rw [hostOf,
      takeWhile_all (fun x hx => decide_eq_true (plainChar_ne (hh x hx) (by decide))),
      hhl]
  have hpp := pathParts_two o r ho hone hr hrne
  have honeb : o.isEmpty = false := by
    cases o
    · simp at hone
    · rfl
  have hb : (("https".data == "http".data || "https".data == "https".data))
      = true := by decide
  have hmem : h ∈ ALLOWED_GIT_HOSTS := by simpa using hhallow
  unfold normalize_repo_url
  rw [if_neg hlen2]
  simp only [hdata, hup, hhost, hpp, hb]
  by_cases hstrip : stripGitSuffix r = []
  · have hstripb : (stripGitSuffix r).isEmpty = true := by simp [hstrip]
    simp [hstrip, hstripb, honeb, hhallow, hmem, optTruthy]
  · have hstripb : (stripGitSuffix r).isEmpty = false := by
      cases hsg : stripGitSuffix r
      · exact absurd hsg hstrip
      · rfl
    simp [hstrip, hstripb, honeb, hhallow, hmem, optTruthy]

theorem stripGitSuffix_append_git (x : List Char) :
    stripGitSuffix (x ++ ".git".data) = x := by
  have hend : endsWithGit (x ++ ".git".data) = true := by
    simp only [endsWithGit, Bool.and_eq_true, decide_eq_true_eq, beq_iff_eq]
    constructor
    · simp
    · have hl : (x ++ ".git".data).length - 4 = x.length := by simp
      rw [hl, List.drop_left]
  rw [stripGitSuffix, if_pos hend]
  have hl : (x ++ ".git".data).length - 4 = x.length := by simp
  rw [hl, List.take_left]

theorem stripGitSuffix_plain {r : List Char}
    (hr : ∀ c ∈ r, plainChar c = true) :
    ∀ c ∈ stripGitSuffix r, plainChar c = true := by
  intro c hc
  rw [stripGitSuffix] at hc
  split at hc
  · exact hr c (List.take_subset _ _ hc)
  · exact hr c hc

theorem stripGitSuffix_ne_nil {r : List Char} (hrne : r ≠ [])
    (hrgit : r ≠ ".git".data) : stripGitSuffix r ≠ [] := by
  rw [stripGitSuffix]
  split
  · rename_i hend
    simp only [endsWithGit, Bool.and_eq_true, decide_eq_true_eq,
      beq_iff_eq] at hend
    obtain ⟨h4, hdrop⟩ := hend
    have h4n : 4 ≤ r.length := by simpa using h4
    intro hnil
    have hlt : r.length - 4 = 0 := by
      have := congrArg List.length hnil
      simpa using this
    rw [hlt, List.drop_zero] at hdrop
    exact hrgit hdrop
  · exact hrne

theorem stripGitSuffix_length_le (r : List Char) :
    (stripGitSuffix r).length ≤ r.length := by
  rw [stripGitSuffix]
  split
  · simp [List.length_take]
  · exact Nat.le_refl _

/-- C7: for every URL of the form `https://{allowed-host}/{owner}/{repo}`
— host a lower-case allow-listed name, owner and repo non-empty plain
segments, the repo segment with or without a trailing `.git` (any plain
`r ≠ ".git"`, within the length ceiling) — `normalize_repo_url` succeeds,
and it is idempotent: normalizing its own output returns that output
unchanged. -/
theorem c7_normalize_succeeds_and_idempotent (h o r : List Char)
    (hh : ∀ c ∈ h, plainChar c = true) (hhl : h.map Char.toLower = h)
    (hhallow : ALLOWED_GIT_HOSTS.contains h = true)
    (ho : ∀ c ∈ o, plainChar c = true) (hone : o ≠ [])
    (hr : ∀ c ∈ r, plainChar c = true) (hrne : r ≠ [])
    (hrgit : r ≠ ".git".data)
    (hlen : h.length + o.length + r.length ≤ 2030) :
    normalize_repo_url (String.mk ("https://".data ++ h ++ '/' :: (o ++ '/' :: r)))
      = .ok (canonicalCloneUrl h o (stripGitSuffix r))
    ∧ normalize_repo_url (canonicalCloneUrl h o (stripGitSuffix r))
      = .ok (canonicalCloneUrl h o (stripGitSuffix r)) := by
  have hstrip := stripGitSuffix_ne_nil hrne hrgit
  have hstriplen := stripGitSuffix_length_le r
  constructor
  · rw [normalize_repo_url_plain h o r hh hhl hhallow ho hone hr hrne (by
      simp only [List.length_append, List.length_cons, List.length_nil]
      omega)]
    rw [if_neg hstrip]
  · have hcan : canonicalCloneUrl h o (stripGitSuffix r)
        = String.mk ("https://".data ++ h
            ++ '/' :: (o ++ '/' :: (stripGitSuffix r ++ ".git".data))) := by
      rw [canonicalCloneUrl]
      congr 1
      simp
    rw [hcan]
    rw [normalize_repo_url_plain h o (stripGitSuffix r ++ ".git".data) hh hhl
      hhallow ho hone
      (by
        intro c hc
        rcases List.mem_append.mp hc with hc | hc
        · exact stripGitSuffix_plain hr c hc
        · have hgit : ∀ d ∈ ".git".data, plainChar d = true := by decide
          exact hgit c hc)
      (by simp)
      (by
        simp only [List.length_append, List.length_cons, List.length_nil]
        omega)]
    rw [stripGitSuffix_append_git, if_neg hstrip]
    exact congrArg Except.ok hcan

/-- Witness for C7: `https://github.com/octo/hello` normalizes to
`https://github.com/octo/hello.git`, a fixed point of normalization. -/
theorem c7_normalize_succeeds_and_idempotent_witness :
    normalize_repo_url (String.mk ("https://".data ++ "github.com".data
        ++ '/' :: ("octo".data ++ '/' :: "hello".data)))
      = .ok (canonicalCloneUrl "github.com".data "octo".data
          (stripGitSuffix "hello".data))
    ∧ normalize_repo_url (canonicalCloneUrl "github.com".data "octo".data
          (stripGitSuffix "hello".data))
      = .ok (canonicalCloneUrl "github.com".data "octo".data
          (stripGitSuffix "hello".data)) :=
  c7_normalize_succeeds_and_idempotent "github.com".data "octo".data
    "hello".data (by decide) (by decide) (by decide) (by decide) (by decide)
    (by decide) (by decide) (by decide) (by decide)
